import Mathlib

/-!
Verification development for the types4yaml schema validator
(`src/types4yaml.py`).

The embedding models the repository's `Type.valid` dispatcher and its
`valid_*` branch methods as a fuel-indexed, state-passing evaluator
`validC` over decoded structured values (`Value`).  The mutable
`self.ctxt` list of scope frames is threaded explicitly as a
`List Value`; Python exceptions (`assert` failures, `AttributeError`
from the name-based method dispatch, `TypeError` from arity or
operand-type mismatches) are modelled by the `PyErr` error component of
the result, paired with the context as it stands when the exception
escapes.  Python's three relevant return values `True` / `False` /
`None` are modelled by `Option Bool` (`none` is Python `None`).

The source file contains obvious slips that are read as written
intent, each noted on the definition embedding it:
the dispatcher's `getattr(m, x, v)` lines are read as the intended
`getattr(self, m)(x, v)` method dispatch, and `valid_date` /
`valid_time` / `valid_datetime` refer to the undefined name `s` (read
as the argument `x`) and to the `re` module, which the source never
imports (read as the `re` module).  Everything else — including the
`# XXX` stub bodies of `valid_dict` / `valid_d_u`, the missing
`return False` fall-through of `valid_date`, the unprotected
push/recurse/pop of `valid_with` and the front-to-back frame search of
`valid_named` — is embedded exactly as written.
-/

/-- A decoded JSON/YAML document value: the data model consumed by the
validator.  `dict` models a Python dict as an association list in
insertion order; keys are unique in any value produced by a decoder.
Numbers are modelled as integers (no analysed claim depends on
non-integral numerics). -/
inductive Value : Type where
  | null
  | bool (b : Bool)
  | num (n : Int)
  | str (s : String)
  | list (xs : List Value)
  | dict (kvs : List (String × Value))

/-- The Python exceptions that can escape the embedded code paths. -/
inductive PyErr : Type where
  | assertionError
  | typeError
  | keyError
  | recursionError
  | attributeError (m : String)

/-- Result of running a piece of Python code: a value or an escaping
exception. -/
inductive PRes (α : Type) : Type where
  | ok (a : α)
  | err (e : PyErr)

/-- Result of one `Type.valid` call: the returned Python value
(`some true` / `some false` / `none` for `None`) or an exception,
together with the `self.ctxt` scope stack after the call. -/
abbrev VRes : Type := PRes (Option Bool) × List Value

/-- Python truthiness of the values `valid` can return:
`True` is truthy, `False` and `None` are falsy. -/
def truthy : Option Bool → Bool
  | some b => b
  | none => false

/-- First-match association-list lookup, modelling Python dict
indexing `d[k]` / membership `k in d` on string-keyed dicts. -/
def lookupV (k : String) : List (String × Value) → Option Value
  | [] => none
  | (k', v) :: rest => if k' = k then some v else lookupV k rest

/-- Does `pre ++ something = cs` hold?  Helper for substring search. -/
def leadsWith : List Char → List Char → Bool
  | [], _ => true
  | _ :: _, [] => false
  | p :: ps, c :: cs => p = c && leadsWith ps cs

/-- Substring test, modelling Python `needle in hay` for strings. -/
def strContains : List Char → List Char → Bool
  | hay, needle =>
    if leadsWith needle hay then true
    else
      match hay with
      | [] => false
      | _ :: t => strContains t needle

/-- Python `==` on scalar values, including the `bool`-is-`int`
coercion (`True == 1`).  Container operands are modelled as unequal;
Python would compare containers recursively, but no analysed claim
exercises container equality inside a membership test. -/
def pyAtomEq (a b : Value) : Bool :=
  match a, b with
  | .null, .null => true
  | .bool p, .bool q => p = q
  | .bool p, .num n => (if p then (1 : Int) else 0) = n
  | .num n, .bool p => n = (if p then (1 : Int) else 0)
  | .num m, .num n => m = n
  | .str s, .str t => s = t
  | _, _ => false

/-- Python `needle in container`: list membership, dict key
membership (unhashable needles raise `TypeError`), substring test on
strings; `in` on a scalar raises `TypeError`. -/
def pyIn (needle container : Value) : PRes Bool :=
  match container with
  | .list xs => .ok (xs.any (pyAtomEq needle))
  | .dict kvs =>
    match needle with
    | .str s => .ok (lookupV s kvs).isSome
    | .list _ => .err .typeError
    | .dict _ => .err .typeError
    | _ => .ok false
  | .str hay =>
    match needle with
    | .str s => .ok (strContains hay.data s.data)
    | _ => .err .typeError
  | _ => .err .typeError

/-- Strip leading and trailing whitespace, as Python `float(str)`
does before parsing. -/
def stripWS (cs : List Char) : List Char :=
  ((cs.dropWhile Char.isWhitespace).reverse.dropWhile Char.isWhitespace).reverse

/-- One-or-more digits. -/
def allDigits (cs : List Char) : Bool :=
  !cs.isEmpty && cs.all Char.isDigit

/-- Optional exponent suffix of a Python float literal: empty, or
`e`/`E`, an optional sign, and one-or-more digits. -/
def expPart : List Char → Bool
  | [] => true
  | c :: r =>
    if c = 'e' ∨ c = 'E' then
      match r with
      | '+' :: r2 => allDigits r2
      | '-' :: r2 => allDigits r2
      | r2 => allDigits r2
    else false

/-- Mantissa of a Python float literal (`digits`, `digits.`,
`digits.digits` or `.digits`) followed by an optional exponent. -/
def floatBody (cs : List Char) : Bool :=
  let ip := cs.takeWhile Char.isDigit
  let r1 := cs.dropWhile Char.isDigit
  match r1 with
  | '.' :: r2 =>
    let fp := r2.takeWhile Char.isDigit
    let r3 := r2.dropWhile Char.isDigit
    if ip.isEmpty && fp.isEmpty then false else expPart r3
  | r => if ip.isEmpty then false else expPart r

/-- Does Python `float(s)` succeed?  Models the numeric string forms
plus the `inf` / `infinity` / `nan` spellings. -/
def pyFloatParses (s : String) : Bool :=
  let cs := stripWS s.data
  let cs2 := match cs with
    | '+' :: r => r
    | '-' :: r => r
    | r => r
  let low := cs2.map Char.toLower
  if low = "inf".data ∨ low = "infinity".data ∨ low = "nan".data then true
  else floatBody cs2

/-- Regular expressions, covering the fragment of Python `re` syntax
the source uses and the analysed claims need: literal characters,
escapes, the `\d` class, `.`, grouping, alternation and the
`*`/`+`/`?` repetitions (`+` and `?` are normalised away at parse
time). -/
inductive Rx : Type where
  | nul
  | eps
  | lit (c : Char)
  | digitC
  | anyC
  | alt (a b : Rx)
  | cat (a b : Rx)
  | star (a : Rx)

/-- Does the regular expression accept the empty string? -/
def nullable : Rx → Bool
  | .nul => false
  | .eps => true
  | .lit _ => false
  | .digitC => false
  | .anyC => false
  | .alt a b => nullable a || nullable b
  | .cat a b => nullable a && nullable b
  | .star _ => true

/-- Brzozowski derivative of a regular expression by one character.
`.` does not match a newline, as in Python without `re.DOTALL`. -/
def rxDeriv : Rx → Char → Rx
  | .nul, _ => .nul
  | .eps, _ => .nul
  | .lit c, d => if c = d then .eps else .nul
  | .digitC, d => if d.isDigit then .eps else .nul
  | .anyC, d => if d = '\n' then .nul else .eps
  | .alt a b, d => .alt (rxDeriv a d) (rxDeriv b d)
  | .cat a b, d => if nullable a then .alt (.cat (rxDeriv a d) b) (rxDeriv b d) else .cat (rxDeriv a d) b
  | .star a, d => .cat (rxDeriv a d) (.star a)

/-- Does the regular expression accept the whole character list? -/
def matchAll : Rx → List Char → Bool
  | r, [] => nullable r
  | r, c :: cs => matchAll (rxDeriv r c) cs

/-- Does the regular expression accept some leading piece of the
character list?  This is Python `re.match` semantics for a pattern
without a final end anchor: anchored at the start only. -/
def matchFront : Rx → List Char → Bool
  | r, [] => nullable r
  | r, c :: cs => nullable r || matchFront (rxDeriv r c) cs

/-- Fold a finished alternative into the accumulated alternation. -/
def mkAlt (alts seq : Rx) : Rx :=
  match alts with
  | .nul => seq
  | a => .alt a seq

/-- Append one item to a sequence, keeping terms small. -/
def mkCat (a b : Rx) : Rx :=
  match a with
  | .eps => b
  | a => .cat a b

/-- Apply an optional postfix repetition operator to a parsed atom. -/
def applyPost : Rx → List Char → Rx × List Char
  | a, '*' :: r => (.star a, r)
  | a, '+' :: r => (.cat a (.star a), r)
  | a, '?' :: r => (.alt .eps a, r)
  | a, r => (a, r)

/-- Recursive-descent pattern reader: fuel, whether we are at the top
level of the pattern, remaining input, accumulated alternation,
accumulated current sequence.  Returns the parsed expression, whether
the pattern ended in the `$` end anchor, and the unread input (used by
the group case, which stops at `)`).  `none` models a pattern
`re.compile` rejects; patterns using constructs outside the modelled
fragment (character classes `[...]`, braces, `(?...)` extensions, a
mid-pattern anchor) are also mapped to `none`. -/
def parseItems : Nat → Bool → List Char → Rx → Rx → Option (Rx × Bool × List Char)
  | 0, _, _, _, _ => none
  | _ + 1, top, [], alts, seq => if top then some (mkAlt alts seq, false, []) else none
  | f + 1, top, c :: rest, alts, seq =>
    if c = ')' then (if top then none else some (mkAlt alts seq, false, c :: rest))
    else if c = '|' then parseItems f top rest (mkAlt alts seq) .eps
    else if c = '$' then (if top ∧ rest = [] then some (mkAlt alts seq, true, []) else none)
    else if c = '*' ∨ c = '+' ∨ c = '?' then none
    else if c = '[' ∨ c = '{' ∨ c = '^' then none
    else if c = '(' then
      match rest with
      | '?' :: _ => none
      | _ =>
        match parseItems f false rest .nul .eps with
        | some (g, _, ')' :: r2) =>
          let (a, r3) := applyPost g r2
          parseItems f top r3 alts (mkCat seq a)
        | _ => none
    else if c = '\\' then
      match rest with
      | [] => none
      | d :: r2 =>
        if d = 'd' then
          let (a, r3) := applyPost .digitC r2
          parseItems f top r3 alts (mkCat seq a)
        else if d.isAlpha ∨ d.isDigit then none
        else
          let (a, r3) := applyPost (.lit d) r2
          parseItems f top r3 alts (mkCat seq a)
    else if c = '.' then
      let (a, r3) := applyPost .anyC rest
      parseItems f top r3 alts (mkCat seq a)
    else
      let (a, r3) := applyPost (.lit c) rest
      parseItems f top r3 alts (mkCat seq a)

/-- Python `re.compile` over the modelled fragment: the compiled
expression and whether the pattern ends in the `$` end anchor.  A
leading `^` is redundant under `re.match` and is dropped. -/
def pyCompile (p : String) : Option (Rx × Bool) :=
  let cs := p.data
  let cs2 := match cs with
    | '^' :: r => r
    | r => r
  match parseItems (2 * cs2.length + 4) true cs2 .nul .eps with
  | some (r, d, []) => some (r, d)
  | _ => none

/-- Truthiness of Python `re.match(pat, s)`: `none` when the pattern
does not compile (the call raises `re.error`), otherwise whether a
match at the start of `s` exists — the whole string must be consumed
exactly when the pattern ends in `$`. -/
def pyReMatchB (pat s : String) : Option Bool :=
  match pyCompile pat with
  | none => none
  | some (r, d) => some (if d then matchAll r s.data else matchFront r s.data)

/-- The pattern literal of `Type.valid_date` (src/types4yaml.py:212). -/
def datePat : String := "\\d\\d\\d\\d/\\d\\d/\\d\\d$"

/-- The pattern literal of `Type.valid_time` (src/types4yaml.py:218). -/
def timePat : String := "\\d\\d:\\d\\d:\\d\\d$"

/-- The pattern literal of `Type.valid_datetime` (src/types4yaml.py:225). -/
def datetimePat : String := "\\d\\d\\d\\d/\\d\\d/\\d\\d \\d\\d:\\d\\d:\\d\\d$"

/-- Embeds the atomic-tag arm of `Type.valid` (src/types4yaml.py:194-196)
together with the one-argument branch methods it can dispatch to.
None of these touch `self.ctxt`, so the context is not threaded here.

* `valid_date` (lines 209-213): non-strings give `False`; a matching
  string gives `True`; a non-matching string falls off the end of the
  method and gives Python `None` (there is no `return False`).
* `valid_time` (lines 215-220) and `valid_datetime` (lines 222-227):
  as written, with an explicit `return False`.
* `valid_number` (lines 229-236): `int` / `long` / `float` instances
  are accepted — in Python a `bool` is an `int` instance, so booleans
  are accepted too; strings are accepted when `float(x)` succeeds;
  for any other value `float(x)` raises `TypeError`, which the
  `except ValueError` clause does not catch.
* The atomic tag `string` finds the two-argument `valid_string`
  (lines 243-251), which shadows the earlier one-argument definition
  (lines 204-207) in the class body, so the one-argument dispatch
  raises `TypeError`; likewise every constructed-kind method name.
* Any other tag has no `valid_<tag>` method: `AttributeError`. -/
def validAtomic (x : Value) (tag : String) : PRes (Option Bool) :=
  if tag = "date" then
    match x with
    | .str s =>
      match pyReMatchB datePat s with
      | some true => .ok (some true)
      | some false => .ok none
      | none => .err .typeError
    | _ => .ok (some false)
  else if tag = "time" then
    match x with
    | .str s =>
      match pyReMatchB timePat s with
      | some true => .ok (some true)
      | some false => .ok (some false)
      | none => .err .typeError
    | _ => .ok (some false)
  else if tag = "datetime" then
    match x with
    | .str s =>
      match pyReMatchB datetimePat s with
      | some true => .ok (some true)
      | some false => .ok (some false)
      | none => .err .typeError
    | _ => .ok (some false)
  else if tag = "number" then
    match x with
    | .num _ => .ok (some true)
    | .bool _ => .ok (some true)
    | .str s => .ok (some (pyFloatParses s))
    | _ => .err .typeError
  else if tag = "string" ∨ tag = "oneof" ∨ tag = "list" ∨ tag = "tuple" ∨ tag = "dict" ∨
      tag = "d_u" ∨ tag = "union" ∨ tag = "with" ∨ tag = "named" then
    .err .typeError
  else .err (.attributeError ("valid_" ++ tag))

/-- Embeds `Type.valid_oneof` (src/types4yaml.py:238-241): non-strings
give `False`; strings are tested by Python `in` against the payload. -/
def validOneof (x v : Value) : PRes (Option Bool) :=
  match x with
  | .str s =>
    match pyIn (.str s) v with
    | .ok b => .ok (some b)
    | .err e => .err e
  | _ => .ok (some false)

/-- Embeds the two-argument `Type.valid_string` (src/types4yaml.py:243-251):
non-strings give `False`; otherwise `re.match(t, x)` is run inside a
bare `try`/`except`, so a non-string payload (`TypeError`) and a
non-compiling pattern (`re.error`) both give `False` rather than an
escaping exception. -/
def validStringRe (x v : Value) : PRes (Option Bool) :=
  match x with
  | .str s =>
    match v with
    | .str pat =>
      match pyCompile pat with
      | none => .ok (some false)
      | some (r, d) => .ok (some (if d then matchAll r s.data else matchFront r s.data))
    | _ => .ok (some false)
  | _ => .ok (some false)

/-- Embeds the frame search of `Type.valid_named`
(src/types4yaml.py:298-302): frames are scanned in the list order of
`self.ctxt`, which is front-to-back — the least-recently-pushed frame
first, since `valid_with` pushes with `append`.  The first frame whose
Python `in` test succeeds supplies the binding (`defs[t]` on a
non-dict frame raises `TypeError`); if no frame matches, the binding
is `none`. -/
def findFrame : List Value → Value → PRes (Option Value)
  | [], _ => .ok none
  | fr :: rest, v =>
    match pyIn v fr with
    | .err e => .err e
    | .ok true =>
      match fr, v with
      | .dict kvs, .str s =>
        match lookupV s kvs with
        | some b => .ok (some b)
        | none => .ok none
      | _, _ => .err .typeError
    | .ok false => findFrame rest v

/-- Embeds the element loop of `Type.valid_list`
(src/types4yaml.py:256-258): each element is validated in turn
against the element type, threading the context; a falsy result
(Python `False` or `None`) stops the loop with `False`, an exception
escapes with the context as it stands. -/
def validAllE (ev : List Value → Value → Value → VRes) :
    List Value → List Value → Value → VRes
  | c, [], _ => (.ok (some true), c)
  | c, e :: es, t =>
    match ev c e t with
    | (.ok r, c') => if truthy r then validAllE ev c' es t else (.ok (some false), c')
    | (.err er, c') => (.err er, c')

/-- Embeds the pairwise loop of `Type.valid_tuple`
(src/types4yaml.py:266-268); only reached after the length check, so
the two lists have equal length. -/
def validZipE (ev : List Value → Value → Value → VRes) :
    List Value → List Value → List Value → VRes
  | c, [], _ => (.ok (some true), c)
  | c, _ :: _, [] => (.ok (some true), c)
  | c, e :: es, t :: ts =>
    match ev c e t with
    | (.ok r, c') => if truthy r then validZipE ev c' es ts else (.ok (some false), c')
    | (.err er, c') => (.err er, c')

/-- Embeds the alternative loop of `Type.valid_union`
(src/types4yaml.py:284-287): the alternatives are tried in order and
the loop returns `True` at the first truthy result, `False` when the
loop runs out. -/
def validAnyE (ev : List Value → Value → Value → VRes) :
    List Value → Value → List Value → VRes
  | c, _, [] => (.ok (some false), c)
  | c, x, u :: us =>
    match ev c x u with
    | (.ok r, c') => if truthy r then (.ok (some true), c') else validAnyE ev c' x us
    | (.err er, c') => (.err er, c')

/-- Embeds `Type.valid_with` (src/types4yaml.py:289-296) for a
well-shaped payload: append the definitions frame to `self.ctxt`, run
the inner validation, pop the frame and return the result.  There is
no `try`/`finally` in the source: when the inner validation raises,
the exception propagates before the `pop`, so the pushed frame stays
on the context. -/
def withFrame (ev : List Value → Value → Value → VRes)
    (c : List Value) (x d u : Value) : VRes :=
  match ev (c ++ [d]) x u with
  | (.ok r, c2) => (.ok r, c2.dropLast)
  | (.err e, c2) => (.err e, c2)

/-- Embeds one dispatch step of `Type.valid` (src/types4yaml.py:190-202),
parameterised by the evaluator `ev` used for recursive calls
(`validC` at the next-smaller fuel).  A string type expression goes to
the atomic arm; otherwise the `assert type(t) == dict and len(t) == 1`
check runs (`AssertionError` for any other shape) and the single
`(kind, payload)` item selects the branch method, mirroring the
intended `getattr(self, 'valid_' + k)(x, v)` dispatch.

Payloads outside each branch's documented shape follow the operations
the source would perform on them: `valid_tuple` and `valid_with` call
`len` (a `TypeError` on scalars) and then index (an int index into a
dict is a `KeyError`; indexing a string yields one-character strings);
`valid_union` iterates its payload (iterating a dict yields its keys,
iterating a string yields one-character strings, iterating a scalar is
a `TypeError`).  A kind naming a one-argument method is a call-arity
`TypeError`; an unknown kind is an `AttributeError`. -/
def validStep (ev : List Value → Value → Value → VRes)
    (c : List Value) (x t : Value) : VRes :=
  match t with
  | .str tag => (validAtomic x tag, c)
  | .dict [(k, v)] =>
    if k = "oneof" then (validOneof x v, c)
    else if k = "string" then (validStringRe x v, c)
    else if k = "list" then
      match x with
      | .list xs => validAllE ev c xs v
      | _ => (.ok (some false), c)
    else if k = "tuple" then
      match x with
      | .list xs =>
        match v with
        | .list ts =>
          if xs.length = ts.length then validZipE ev c xs ts else (.ok (some false), c)
        | .dict kvs =>
          if xs.length = kvs.length then
            (if xs.isEmpty then (.ok (some true), c) else (.err .keyError, c))
          else (.ok (some false), c)
        | .str s =>
          if xs.length = s.data.length then
            validZipE ev c xs (s.data.map (fun ch => Value.str (String.mk [ch])))
          else (.ok (some false), c)
        | _ => (.err .typeError, c)
      | _ => (.ok (some false), c)
    else if k = "dict" then
      match x with
      | .dict _ => (.ok (some true), c)
      | _ => (.ok (some false), c)
    else if k = "d_u" then
      match x with
      | .dict _ => (.ok (some true), c)
      | _ => (.ok (some false), c)
    else if k = "union" then
      match v with
      | .list ts => validAnyE ev c x ts
      | .dict kvs => validAnyE ev c x (kvs.map (fun p => Value.str p.1))
      | .str s => validAnyE ev c x (s.data.map (fun ch => Value.str (String.mk [ch])))
      | _ => (.err .typeError, c)
    else if k = "with" then
      match v with
      | .list [d, u] => withFrame ev c x d u
      | .list _ => (.err .assertionError, c)
      | .dict kvs => if kvs.length = 2 then (.err .keyError, c) else (.err .assertionError, c)
      | .str s =>
        match s.data with
        | [a, b] => withFrame ev c x (.str (String.mk [a])) (.str (String.mk [b]))
        | _ => (.err .assertionError, c)
      | _ => (.err .typeError, c)
    else if k = "named" then
      match findFrame c v with
      | .ok (some bound) => ev c x bound
      | .ok none => (.ok (some false), c)
      | .err e => (.err e, c)
    else if k = "date" ∨ k = "time" ∨ k = "datetime" ∨ k = "number" then
      (.err .typeError, c)
    else (.err (.attributeError ("valid_" ++ k)), c)
  | .dict _ => (.err .assertionError, c)
  | _ => (.err .assertionError, c)

/-- The embedded `Type.valid` (src/types4yaml.py:190-202): the fuel
counts remaining Python recursion depth, and running out models the
interpreter's `RecursionError`.  The arguments after the fuel are the
scope stack `self.ctxt`, the data value `x` and the type expression
`t`. -/
def validC : Nat → List Value → Value → Value → VRes
  | 0 => fun c _ _ => (.err .recursionError, c)
  | f + 1 => fun c x t => validStep (validC f) c x t

/-- The bindings frame of the built-in meta-schema
`type_definition_of_types` (src/types4yaml.py:151-169), transcribed
from its YAML text: the three named types `dictionary`, `types` and
`type`, with the `d_u` tags in the source's order. -/
def metaBindings : Value :=
  .dict [
    ("dictionary", .dict [("dict", .dict [("*", .dict [("named", .str "type")])])]),
    ("types", .dict [("list", .dict [("named", .str "type")])]),
    ("type", .dict [("union", .list [
      .dict [("oneof", .list [.str "any", .str "string", .str "date", .str "time",
        .str "datetime", .str "number"])],
      .dict [("dict", .dict [("d_u", .dict [
        ("oneof", .dict [("list", .str "string")]),
        ("string", .str "string"),
        ("list", .dict [("named", .str "type")]),
        ("tuple", .dict [("named", .str "types")]),
        ("dict", .dict [("named", .str "dictionary")]),
        ("union", .dict [("named", .str "types")]),
        ("d_u", .dict [("named", .str "dictionary")]),
        ("with", .dict [("tuple", .list [
          .dict [("named", .str "dictionary")],
          .dict [("named", .str "type")]])]),
        ("named", .str "string")])])]])])]

/-- The built-in type-definition-of-types constant
(src/types4yaml.py:147-172), decoded from its YAML text: a `with`
node binding `dictionary` / `types` / `type` around `{named: type}`. -/
def type_definition_of_types : Value :=
  .dict [("with", .list [metaBindings, .dict [("named", .str "type")]])]

/-- Modelled from the spec: `validate_schema(raw)` is named in the
spec's external interface but is absent from `src/` (the source's only
entry point, `make_type`, is a stub).  Per the spec it "runs the
Meta-Schema check": validate the raw schema value against the
Meta-Schema with the engine's `valid` and a fresh empty scope stack.
The engine used is the embedded `Type.valid` (`validC`). -/
def validate_schema (fuel : Nat) (raw : Value) : VRes :=
  validC fuel [] raw type_definition_of_types

/-- Truthiness of one evaluated union alternative: used to state what
`valid_union` computes. -/
def memTruthy (f : Nat) (c : List Value) (x u : Value) : Bool :=
  match (validC f c x u).1 with
  | .ok r => truthy r
  | .err _ => false

/-- A scope frame that is a dict not binding the name `n`: the shape
under which `valid_named`'s search skips the frame and continues. -/
def frameOmits (n : String) (fr : Value) : Prop :=
  ∃ kvs, fr = Value.dict kvs ∧ lookupV n kvs = none

/-- A two-frame scope stack binding the same name in both frames: the
first (least-recently-pushed) frame binds `n` to the atomic `number`
type, the second (most-recently-pushed) frame binds `n` to a `oneof`
type that only accepts the string `a`. -/
def c6ctxt : List Value :=
  [.dict [("n", .str "number")],
   .dict [("n", .dict [("oneof", .list [.str "a"])])]]

/-- Second components of equal pairs are equal (read right-to-left). -/
theorem pairSnd {α β : Type} {a a2 : α} {b b2 : β} (h : (a, b) = (a2, b2)) : b2 = b :=
  (congrArg Prod.snd h).symm

/-- A result pair whose first component is an error never equals a
pair whose first component is `ok`. -/
theorem errPairAbsurd {α : Type} {C : Prop} {e : PyErr} {r : α} {c c2 : List Value}
    (h : ((PRes.err e : PRes α), c) = (.ok r, c2)) : C :=
  PRes.noConfusion (congrArg Prod.fst h)

/-- If the evaluator leaves the context unchanged on every non-raising
call, so does the `valid_list` element loop. -/
theorem validAllE_restore (ev : List Value → Value → Value → VRes)
    (hev : ∀ c x t r c2, ev c x t = (.ok r, c2) → c2 = c) :
    ∀ es c t r c2, validAllE ev c es t = (.ok r, c2) → c2 = c := by
  intro es
  induction es with
  | nil => intro c t r c2 h; exact pairSnd h
  | cons e es ih =>
    intro c t r c2 h
    simp only [validAllE] at h
    cases heq : ev c e t with
    | mk res c1 =>
      rw [heq] at h
      cases res with
      | ok r1 =>
        dsimp only [] at h
        have hc1 : c1 = c := hev c e t r1 c1 heq
        rw [hc1] at h
        by_cases ht : truthy r1 = true
        · rw [if_pos ht] at h; exact ih c t r c2 h
        · rw [if_neg ht] at h; exact pairSnd h
      | err e1 => exact errPairAbsurd h

/-- If the evaluator leaves the context unchanged on every non-raising
call, so does the `valid_tuple` pairwise loop. -/
theorem validZipE_restore (ev : List Value → Value → Value → VRes)
    (hev : ∀ c x t r c2, ev c x t = (.ok r, c2) → c2 = c) :
    ∀ es ts c r c2, validZipE ev c es ts = (.ok r, c2) → c2 = c := by
  intro es
  induction es with
  | nil => intro ts c r c2 h; exact pairSnd h
  | cons e es ih =>
    intro ts c r c2 h
    cases ts with
    | nil => exact pairSnd h
    | cons t ts =>
      simp only [validZipE] at h
      cases heq : ev c e t with
      | mk res c1 =>
        rw [heq] at h
        cases res with
        | ok r1 =>
          dsimp only [] at h
          have hc1 : c1 = c := hev c e t r1 c1 heq
          rw [hc1] at h
          by_cases ht : truthy r1 = true
          · rw [if_pos ht] at h; exact ih ts c r c2 h
          · rw [if_neg ht] at h; exact pairSnd h
        | err e1 => exact errPairAbsurd h

/-- If the evaluator leaves the context unchanged on every non-raising
call, so does the `valid_union` alternative loop. -/
theorem validAnyE_restore (ev : List Value → Value → Value → VRes)
    (hev : ∀ c x t r c2, ev c x t = (.ok r, c2) → c2 = c) :
    ∀ us c x r c2, validAnyE ev c x us = (.ok r, c2) → c2 = c := by
  intro us
  induction us with
  | nil => intro c x r c2 h; exact pairSnd h
  | cons u us ih =>
    intro c x r c2 h
    simp only [validAnyE] at h
    cases heq : ev c x u with
    | mk res c1 =>
      rw [heq] at h
      cases res with
      | ok r1 =>
        dsimp only [] at h
        have hc1 : c1 = c := hev c x u r1 c1 heq
        rw [hc1] at h
        by_cases ht : truthy r1 = true
        · rw [if_pos ht] at h; exact pairSnd h
        · rw [if_neg ht] at h; exact ih c x r c2 h
      | err e1 => exact errPairAbsurd h

/-- If the evaluator leaves the context unchanged on every non-raising
call, a `valid_with` evaluation that returns a value restores the
context: the appended frame is the last element and `pop` removes
exactly it. -/
theorem withFrame_restore (ev : List Value → Value → Value → VRes)
    (hev : ∀ c x t r c2, ev c x t = (.ok r, c2) → c2 = c) :
    ∀ c x d u r c2, withFrame ev c x d u = (.ok r, c2) → c2 = c := by
  intro c x d u r c2 h
  simp only [withFrame] at h
  cases heq : ev (c ++ [d]) x u with
  | mk res c1 =>
    rw [heq] at h
    cases res with
    | ok r1 =>
      dsimp only [] at h
      have hc1 : c1 = c ++ [d] := hev (c ++ [d]) x u r1 c1 heq
      have h2 : c2 = c1.dropLast := pairSnd h
      rw [h2, hc1, List.dropLast_concat]
    | err e1 => exact errPairAbsurd h

/-- One dispatch step of `valid` leaves the context unchanged whenever
it returns a value (rather than raising), provided recursive calls
do. -/
theorem validStep_restore (ev : List Value → Value → Value → VRes)
    (hev : ∀ c x t r c2, ev c x t = (.ok r, c2) → c2 = c) :
    ∀ c x t r c2, validStep ev c x t = (.ok r, c2) → c2 = c := by
  intro c x t r c2 h
  cases t with
  | null => exact errPairAbsurd h
  | bool b => exact errPairAbsurd h
  | num n => exact errPairAbsurd h
  | str tag => exact pairSnd h
  | list xs => exact errPairAbsurd h
  | dict kvs =>
    cases kvs with
    | nil => exact errPairAbsurd h
    | cons kv rest =>
      cases rest with
      | cons kv2 rest2 => exact errPairAbsurd h
      | nil =>
        obtain ⟨k, v⟩ := kv
        simp only [validStep] at h
        by_cases h1 : k = "oneof"
        · rw [if_pos h1] at h; exact pairSnd h
        · rw [if_neg h1] at h
          by_cases h2 : k = "string"
          · rw [if_pos h2] at h; exact pairSnd h
          · rw [if_neg h2] at h
            by_cases h3 : k = "list"
            · rw [if_pos h3] at h
              cases x with
              | list xs => exact validAllE_restore ev hev xs c v r c2 h
              | null => exact pairSnd h
              | bool b => exact pairSnd h
              | num n => exact pairSnd h
              | str s => exact pairSnd h
              | dict kvs2 => exact pairSnd h
            · rw [if_neg h3] at h
              by_cases h4 : k = "tuple"
              · rw [if_pos h4] at h
                cases x with
                | null => exact pairSnd h
                | bool b => exact pairSnd h
                | num n => exact pairSnd h
                | str s => exact pairSnd h
                | dict kvs2 => exact pairSnd h
                | list xs =>
                  dsimp only [] at h
                  cases v with
                  | null => exact errPairAbsurd h
                  | bool b => exact errPairAbsurd h
                  | num n => exact errPairAbsurd h
                  | list ts =>
                    dsimp only [] at h
                    by_cases hl : xs.length = ts.length
                    · rw [if_pos hl] at h; exact validZipE_restore ev hev xs ts c r c2 h
                    · rw [if_neg hl] at h; exact pairSnd h
                  | dict kvs3 =>
                    dsimp only [] at h
                    by_cases hl : xs.length = kvs3.length
                    · rw [if_pos hl] at h
                      by_cases he : xs.isEmpty = true
                      · rw [if_pos he] at h; exact pairSnd h
                      · rw [if_neg he] at h; exact errPairAbsurd h
                    · rw [if_neg hl] at h; exact pairSnd h
                  | str s =>
                    dsimp only [] at h
                    by_cases hl : xs.length = s.data.length
                    · rw [if_pos hl] at h
                      exact validZipE_restore ev hev xs
                        (s.data.map (fun ch => Value.str (String.mk [ch]))) c r c2 h
                    · rw [if_neg hl] at h; exact pairSnd h
              · rw [if_neg h4] at h
                by_cases h5 : k = "dict"
                · rw [if_pos h5] at h
                  cases x with
                  | dict kvs2 => exact pairSnd h
                  | null => exact pairSnd h
                  | bool b => exact pairSnd h
                  | num n => exact pairSnd h
                  | str s => exact pairSnd h
                  | list xs => exact pairSnd h
                · rw [if_neg h5] at h
                  by_cases h6 : k = "d_u"
                  · rw [if_pos h6] at h
                    cases x with
                    | dict kvs2 => exact pairSnd h
                    | null => exact pairSnd h
                    | bool b => exact pairSnd h
                    | num n => exact pairSnd h
                    | str s => exact pairSnd h
                    | list xs => exact pairSnd h
                  · rw [if_neg h6] at h
                    by_cases h7 : k = "union"
                    · rw [if_pos h7] at h
                      cases v with
                      | list ts => exact validAnyE_restore ev hev ts c x r c2 h
                      | dict kvs3 =>
                        exact validAnyE_restore ev hev (kvs3.map (fun p => Value.str p.1)) c x r c2 h
                      | str s =>
                        exact validAnyE_restore ev hev
                          (s.data.map (fun ch => Value.str (String.mk [ch]))) c x r c2 h
                      | null => exact errPairAbsurd h
                      | bool b => exact errPairAbsurd h
                      | num n => exact errPairAbsurd h
                    · rw [if_neg h7] at h
                      by_cases h8 : k = "with"
                      · rw [if_pos h8] at h
                        cases v with
                        | null => exact errPairAbsurd h
                        | bool b => exact errPairAbsurd h
                        | num n => exact errPairAbsurd h
                        | dict kvs3 =>
                          dsimp only [] at h
                          by_cases hl : kvs3.length = 2
                          · rw [if_pos hl] at h; exact errPairAbsurd h
                          · rw [if_neg hl] at h; exact errPairAbsurd h
                        | str s =>
                          obtain ⟨cs⟩ := s
                          cases cs with
                          | nil => exact errPairAbsurd h
                          | cons a cs2 =>
                            cases cs2 with
                            | nil => exact errPairAbsurd h
                            | cons b cs3 =>
                              cases cs3 with
                              | nil =>
                                exact withFrame_restore ev hev c x
                                  (.str (String.mk [a])) (.str (String.mk [b])) r c2 h
                              | cons d cs4 => exact errPairAbsurd h
                        | list vs =>
                          cases vs with
                          | nil => exact errPairAbsurd h
                          | cons d vs2 =>
                            cases vs2 with
                            | nil => exact errPairAbsurd h
                            | cons u vs3 =>
                              cases vs3 with
                              | nil => exact withFrame_restore ev hev c x d u r c2 h
                              | cons w vs4 => exact errPairAbsurd h
                      · rw [if_neg h8] at h
                        by_cases h9 : k = "named"
                        · rw [if_pos h9] at h
                          revert h
                          cases hf : findFrame c v with
                          | ok ob =>
                            cases ob with
                            | some bound => intro h; exact hev c x bound r c2 h
                            | none => intro h; exact pairSnd h
                          | err e1 => intro h; exact errPairAbsurd h
                        · rw [if_neg h9] at h
                          by_cases h10 : k = "date" ∨ k = "time" ∨ k = "datetime" ∨ k = "number"
                          · rw [if_pos h10] at h; exact errPairAbsurd h
                          · rw [if_neg h10] at h; exact errPairAbsurd h

/-- The embedded `valid` leaves `self.ctxt` exactly as it found it
whenever it returns a value `True` / `False` / `None`; only an
escaping exception can leave the context changed. -/
theorem validC_restore : ∀ (f : Nat) (c : List Value) (x t : Value) (r : Option Bool)
    (c2 : List Value), validC f c x t = (.ok r, c2) → c2 = c := by
  intro f
  induction f with
  | zero => intro c x t r c2 h; exact errPairAbsurd h
  | succ f ih => intro c x t r c2 h; exact validStep_restore (validC f) ih c x t r c2 h

/-- First components of equal ok-pairs are equal. -/
theorem okPairInj {b1 b2 : Option Bool} {c c2 : List Value}
    (h : ((PRes.ok b1 : PRes (Option Bool)), c) = (.ok b2, c2)) : b1 = b2 :=
  PRes.ok.inj (congrArg Prod.fst h)

/-- `matchFront` accepts a character list exactly when the expression
accepts some leading piece of it: start-anchored, end-unanchored
matching. -/
theorem matchFront_iff (r : Rx) (s : List Char) :
    matchFront r s = true ↔ ∃ p q, p ++ q = s ∧ matchAll r p = true := by
  induction s generalizing r with
  | nil =>
    constructor
    · intro h; exact ⟨[], [], rfl, h⟩
    · rintro ⟨p, q, hpq, hm⟩
      cases p with
      | nil => exact hm
      | cons a as => exact absurd hpq (by simp)
  | cons c cs ih =>
    constructor
    · intro h
      have h2 : (nullable r || matchFront (rxDeriv r c) cs) = true := h
      cases Bool.or_eq_true_iff.mp h2 with
      | inl hn => exact ⟨[], c :: cs, rfl, hn⟩
      | inr hm =>
        obtain ⟨p, q, hpq, hma⟩ := (ih (rxDeriv r c)).mp hm
        exact ⟨c :: p, q, by rw [List.cons_append, hpq], hma⟩
    · rintro ⟨p, q, hpq, hm⟩
      show (nullable r || matchFront (rxDeriv r c) cs) = true
      cases p with
      | nil =>
        exact Bool.or_eq_true_iff.mpr (Or.inl hm)
      | cons a as =>
        rw [List.cons_append] at hpq
        injection hpq with h1 h2
        rw [h1] at hm
        exact Bool.or_eq_true_iff.mpr (Or.inr ((ih (rxDeriv r c)).mpr ⟨as, q, h2, hm⟩))

/-- When every frame of the context is a dict not binding `n`, the
frame search of `valid_named` finds nothing. -/
theorem findFrame_skip (n : String) :
    ∀ c : List Value, (∀ fr ∈ c, frameOmits n fr) → findFrame c (.str n) = .ok none := by
  intro c
  induction c with
  | nil => intro _; rfl
  | cons fr rest ih =>
    intro hall
    obtain ⟨kvs, rfl, hnone⟩ := hall fr (List.mem_cons_self _ _)
    have hrest := ih (fun f hf => hall f (List.mem_cons_of_mem _ hf))
    simp only [findFrame, pyIn, hnone, Option.isSome_none]
    exact hrest

/-- When every frame before it omits `n` and the frame `kvs` binds
`n` to `t'`, the front-to-back frame search of `valid_named` returns
the binding of the first — least-recently-pushed — matching frame. -/
theorem findFrame_hit (n : String) (t' : Value) :
    ∀ c1 : List Value, (∀ fr ∈ c1, frameOmits n fr) →
    ∀ (kvs : List (String × Value)) (c2 : List Value), lookupV n kvs = some t' →
    findFrame (c1 ++ Value.dict kvs :: c2) (.str n) = .ok (some t') := by
  intro c1
  induction c1 with
  | nil =>
    intro _ kvs c2 hl
    simp only [List.nil_append, findFrame, pyIn, hl, Option.isSome_some]
  | cons fr rest ih =>
    intro hall kvs c2 hl
    obtain ⟨kvs0, rfl, hnone⟩ := hall fr (List.mem_cons_self _ _)
    have hrest := ih (fun f hf => hall f (List.mem_cons_of_mem _ hf)) kvs c2 hl
    simp only [List.cons_append, findFrame, pyIn, hnone, Option.isSome_none]
    exact hrest

/-- A permutation of a list does not change whether some element
satisfies a boolean test. -/
theorem any_perm_eq {l1 l2 : List Value} (hp : List.Perm l1 l2) (p : Value → Bool) :
    l1.any p = l2.any p := by
  have hiff : l1.any p = true ↔ l2.any p = true := by
    rw [List.any_eq_true, List.any_eq_true]
    constructor
    · rintro ⟨a, ha, hpa⟩; exact ⟨a, hp.mem_iff.mp ha, hpa⟩
    · rintro ⟨a, ha, hpa⟩; exact ⟨a, hp.mem_iff.mpr ha, hpa⟩
  cases hx : l1.any p <;> cases hy : l2.any p
  · rfl
  · exact absurd (hiff.mpr hy) (by rw [hx]; exact Bool.false_ne_true)
  · exact absurd (hiff.mp hx) (by rw [hy]; exact Bool.false_ne_true)
  · rfl

/-- When every alternative of a union evaluates without raising, the
`valid_union` loop computes exactly "some alternative is truthy" and
restores the context. -/
theorem validAnyE_compute (f : Nat) (c : List Value) (x : Value) :
    ∀ ts : List Value, (∀ u ∈ ts, ∃ r, (validC f c x u).1 = PRes.ok r) →
    validAnyE (validC f) c x ts = (.ok (some (ts.any (memTruthy f c x))), c) := by
  intro ts
  induction ts with
  | nil => intro _; rfl
  | cons u us ih =>
    intro hall
    obtain ⟨r, hr⟩ := hall u (List.mem_cons_self _ _)
    have hu : validC f c x u = (PRes.ok r, (validC f c x u).2) := by
      rw [← hr]
    have hc2 : (validC f c x u).2 = c := validC_restore f c x u r _ hu
    rw [hc2] at hu
    have hmt : memTruthy f c x u = truthy r := by
      simp only [memTruthy, hr]
    have htail := ih (fun w hw => hall w (List.mem_cons_of_mem _ hw))
    simp only [validAnyE, hu, List.any_cons, hmt]
    by_cases ht : truthy r = true
    · rw [if_pos ht, ht, Bool.true_or]
    · have hf : truthy r = false := by
        cases htr : truthy r
        · rfl
        · exact absurd htr ht
      rw [if_neg ht, htail, hf, Bool.false_or]

/-- C1: evidence for the date branch.  On the well-formed atomic type
`date` and the non-conforming string `"1999-01-01"`, the embedded
`valid` returns Python `None` (`.ok none`) — `valid_date` has no
`return False` fall-through — while a conforming string returns
`True`.  The claim says non-conformance always yields the boolean
`False`; the code disagrees at this input.  (Read literally, the
source's `valid_date` body would instead raise a `NameError`, since
it references the undefined name `s` and the never-imported `re`
module; either way the result is not `False`.) -/
theorem valid_date_returns_none :
    validC 3 [] (.str "1999-01-01") (.str "date") = (PRes.ok none, []) ∧
    validC 3 [] (.str "1999/01/01") (.str "date") = (PRes.ok (some true), []) := ⟨rfl, rfl⟩

/-- C2: `validate_schema` (spec-modelled wrapper over the embedded
`valid`) applied to the built-in `type_definition_of_types` value
returns `True` with the scope stack empty again.  The success runs
through the stubbed `valid_dict`, which accepts any mapping. -/
theorem validate_schema_meta_self :
    validate_schema 32 type_definition_of_types = (PRes.ok (some true), []) := rfl

/-- C3: evidence that `valid_dict` is an unfinished stub.  Against the
schema `{dict: {foo: string}}` the empty mapping (required key `foo`
missing) and the mapping `{bar: 1}` (unknown key, no wildcard) are
both accepted, while the documented key-matching rule makes both
invalid. -/
theorem valid_dict_stub_accepts_any_mapping :
    validC 3 [] (.dict []) (.dict [("dict", .dict [("foo", .str "string")])]) =
      (PRes.ok (some true), []) ∧
    validC 3 [] (.dict [("bar", .num 1)]) (.dict [("dict", .dict [("foo", .str "string")])]) =
      (PRes.ok (some true), []) := ⟨rfl, rfl⟩

/-- C4: evidence that `valid_d_u` is an unfinished stub.  Against the
schema `{d_u: {a: number}}` the zero-key mapping and a two-key mapping
are both accepted, while the documented rule requires exactly one key
drawn from the tags. -/
theorem valid_d_u_stub_accepts_any_mapping :
    validC 3 [] (.dict []) (.dict [("d_u", .dict [("a", .str "number")])]) =
      (PRes.ok (some true), []) ∧
    validC 3 [] (.dict [("a", .num 1), ("b", .str "x")])
      (.dict [("d_u", .dict [("a", .str "number")])]) =
      (PRes.ok (some true), []) := ⟨rfl, rfl⟩

/-- C5 counterexample: a `with` whose inner type expression is
malformed (a two-key constructed node) aborts with the schema error
out of the `assert`, and because `valid_with` has no `try`/`finally`,
the pushed frame `{}` is still on the scope stack when the top-level
call returns — the stack is not empty after this failing top-level
call, contradicting the claim's "popped on every exit path". -/
theorem validC_with_leaks_frame :
    validC 5 [] (.num 0)
      (.dict [("with", .list [.dict [],
        .dict [("oneof", .list []), ("list", .str "string")]])]) =
      (.err .assertionError, [.dict []]) := rfl

/-- C5 (amended): whenever a top-level `valid` call started with an
empty scope stack returns a value (`True`, `False` or `None`) rather
than raising, the scope stack is empty again: on non-raising paths
every `with` push is matched by its pop.  Only a schema-error abort
escapes between push and pop and leaks the frame. -/
theorem validC_ok_empty_ctxt (f : Nat) (x t : Value) (r : Option Bool) (c2 : List Value)
    (h : validC f [] x t = (PRes.ok r, c2)) : c2 = [] :=
  validC_restore f [] x t r c2 h

/-- Witness for C5's amended theorem at a concrete `with` evaluation. -/
theorem validC_ok_empty_ctxt_witness :
    validC 3 [] (.num 5)
      (.dict [("with", .list [.dict [("n", .str "number")], .dict [("named", .str "n")]])]) =
      (PRes.ok (some true), []) ∧ ([] : List Value) = [] :=
  ⟨rfl, validC_ok_empty_ctxt 3 (.num 5)
    (.dict [("with", .list [.dict [("n", .str "number")], .dict [("named", .str "n")]])])
    (some true) [] rfl⟩

/-- C6 counterexample: with `c6ctxt`, whose most-recently-pushed frame
binds `n` to a `oneof` type that the number `5` does not satisfy and
whose least-recently-pushed frame binds `n` to `number`, the embedded
`valid_named` returns `True` — it recursed into the least-recent
binding — whereas the claim's most-recent-first search would validate
`5` against the `oneof` binding, which returns `False` (second
conjunct). -/
theorem validC_named_uses_oldest_frame :
    validC 5 c6ctxt (.num 5) (.dict [("named", .str "n")]) = (PRes.ok (some true), c6ctxt) ∧
    validC 4 c6ctxt (.num 5) (.dict [("oneof", .list [.str "a"])]) =
      (PRes.ok (some false), c6ctxt) := ⟨rfl, rfl⟩

/-- C6 (amended): `valid_named` searches the scope stack's frames from
least-recently-pushed to most-recently-pushed (Python list order of
`self.ctxt`), recursing into the binding of the first frame that
contains the name; a name bound in no frame yields the ordinary
data-validation result `False`, not a schema error. -/
theorem validC_named_search_order :
    (∀ (f : Nat) (c : List Value) (x : Value) (n : String),
      (∀ fr ∈ c, frameOmits n fr) →
      validC (f+1) c x (.dict [("named", .str n)]) = (PRes.ok (some false), c)) ∧
    (∀ (f : Nat) (c1 c2 : List Value) (x : Value) (n : String)
      (kvs : List (String × Value)) (t2 : Value),
      (∀ fr ∈ c1, frameOmits n fr) → lookupV n kvs = some t2 →
      validC (f+1) (c1 ++ Value.dict kvs :: c2) x (.dict [("named", .str n)]) =
        validC f (c1 ++ Value.dict kvs :: c2) x t2) := by
  constructor
  · intro f c x n hall
    have he : validC (f+1) c x (.dict [("named", .str n)]) =
        (match findFrame c (.str n) with
         | .ok (some bound) => validC f c x bound
         | .ok none => (.ok (some false), c)
         | .err e => (.err e, c)) := rfl
    rw [he, findFrame_skip n c hall]
  · intro f c1 c2 x n kvs t2 hall hl
    have he : validC (f+1) (c1 ++ Value.dict kvs :: c2) x (.dict [("named", .str n)]) =
        (match findFrame (c1 ++ Value.dict kvs :: c2) (.str n) with
         | .ok (some bound) => validC f (c1 ++ Value.dict kvs :: c2) x bound
         | .ok none => (.ok (some false), c1 ++ Value.dict kvs :: c2)
         | .err e => (.err e, c1 ++ Value.dict kvs :: c2)) := rfl
    rw [he, findFrame_hit n t2 c1 hall kvs c2 hl]

/-- Witness for C6's amended theorem: both conjuncts at concrete
inputs — a hit behind one empty frame, and an unbound name. -/
theorem validC_named_search_order_witness :
    validC 6 [Value.dict [], Value.dict [("n", .str "number")]] (.num 5)
      (.dict [("named", .str "n")]) =
      validC 5 [Value.dict [], Value.dict [("n", .str "number")]] (.num 5) (.str "number") ∧
    validC 6 [Value.dict []] (.num 5) (.dict [("named", .str "n")]) =
      (PRes.ok (some false), [Value.dict []]) :=
  ⟨validC_named_search_order.2 5 [Value.dict []] [] (.num 5) "n"
      [("n", .str "number")] (.str "number")
      (by
        intro fr hfr
        rw [List.mem_singleton] at hfr
        subst hfr
        exact ⟨[], rfl, rfl⟩)
      rfl,
   validC_named_search_order.1 5 [Value.dict []] (.num 5) "n"
      (by
        intro fr hfr
        rw [List.mem_singleton] at hfr
        subst hfr
        exact ⟨[], rfl, rfl⟩)⟩

/-- C7 counterexample: union evaluation is not order-independent on
the code, and "valid against at least one alternative" does not imply
`True`.  The number `5` is valid against the alternative `number` in
both lists, yet with the alternative list `["string", "number"]` the
short-circuit loop reaches the atomic tag `string` first — whose
one-argument method is shadowed by the two-argument regex form, so
the dispatch raises `TypeError` — and the whole union aborts instead
of returning `True`; with the members swapped, `number` succeeds
first and the union returns `True`.  Swapping the members thus changes
the outcome, refuting the claim as stated at this concrete input. -/
theorem validC_union_order_dependent :
    validC 3 [] (.num 5) (.dict [("union", .list [.str "string", .str "number"])]) =
      (.err .typeError, []) ∧
    validC 3 [] (.num 5) (.dict [("union", .list [.str "number", .str "string"])]) =
      (.ok (some true), []) := ⟨rfl, rfl⟩

/-- C7 (amended): for a `union` type expression all of whose
alternatives evaluate without raising a schema error, the embedded
`valid` returns `True` exactly when the data value is valid against
at least one alternative, and the result is identical for any
permutation of the alternative list.  (When evaluating an alternative
raises — as the atomic tags `string` and `any` always do, their
methods being shadowed or missing — the exception aborts the union at
the point that alternative is reached, so member order decides
between a result and an exception; see the counterexample above.) -/
theorem validC_union_spec (f : Nat) (c : List Value) (x : Value) (ts ts2 : List Value)
    (hp : List.Perm ts ts2)
    (hok : ∀ u ∈ ts, ∃ r, (validC f c x u).1 = PRes.ok r) :
    (validC (f+1) c x (.dict [("union", .list ts)]) = (.ok (some true), c) ↔
      ∃ u ∈ ts, (validC f c x u).1 = PRes.ok (some true)) ∧
    validC (f+1) c x (.dict [("union", .list ts)]) =
      validC (f+1) c x (.dict [("union", .list ts2)]) := by
  have he1 : validC (f+1) c x (.dict [("union", .list ts)]) = validAnyE (validC f) c x ts := rfl
  have he2 : validC (f+1) c x (.dict [("union", .list ts2)]) = validAnyE (validC f) c x ts2 := rfl
  have hok2 : ∀ u ∈ ts2, ∃ r, (validC f c x u).1 = PRes.ok r :=
    fun u hu => hok u (hp.mem_iff.mpr hu)
  have e1 := validAnyE_compute f c x ts hok
  have e2 := validAnyE_compute f c x ts2 hok2
  constructor
  · rw [he1, e1]
    constructor
    · intro hh
      have hany : ts.any (memTruthy f c x) = true := Option.some.inj (okPairInj hh)
      obtain ⟨u, hu, hq⟩ := List.any_eq_true.mp hany
      obtain ⟨r, hr⟩ := hok u hu
      refine ⟨u, hu, ?_⟩
      have htr : truthy r = true := by
        have hmt : memTruthy f c x u = truthy r := by simp only [memTruthy, hr]
        rw [← hmt]; exact hq
      cases r with
      | none => exact absurd htr (by simp [truthy])
      | some b =>
        cases b with
        | true => exact hr
        | false => exact absurd htr (by simp [truthy])
    · rintro ⟨u, hu, hok1⟩
      have hq : memTruthy f c x u = true := by simp only [memTruthy, hok1, truthy]
      have hany : ts.any (memTruthy f c x) = true := List.any_eq_true.mpr ⟨u, hu, hq⟩
      rw [hany]
  · rw [he1, he2, e1, e2, any_perm_eq hp]

/-- Witness for C7 at a concrete union: both conjuncts with the
alternative list `[number, time]` and its swap, on the number `7`. -/
theorem validC_union_spec_witness :
    ((validC 3 [] (.num 7) (.dict [("union", .list [.str "number", .str "time"])]) =
        (.ok (some true), []) ↔
      ∃ u ∈ [Value.str "number", Value.str "time"],
        (validC 2 [] (.num 7) u).1 = PRes.ok (some true)) ∧
     validC 3 [] (.num 7) (.dict [("union", .list [.str "number", .str "time"])]) =
       validC 3 [] (.num 7) (.dict [("union", .list [.str "time", .str "number"])])) :=
  validC_union_spec 2 [] (.num 7) [.str "number", .str "time"] [.str "time", .str "number"]
    (List.Perm.swap _ _ _)
    (by
      intro u hu
      rw [List.mem_cons, List.mem_singleton] at hu
      cases hu with
      | inl h => subst h; exact ⟨some true, rfl⟩
      | inr h => subst h; exact ⟨some false, rfl⟩)

/-- C8: evidence for the time branch.  The docstring's contract admits
an optional fractional-seconds suffix, but `valid_time`'s pattern
`\d\d:\d\d:\d\d$` has no fractional branch: the embedded code rejects
`"01:02:03.5"` while accepting `"01:02:03"`. -/
theorem valid_time_rejects_fraction :
    validC 3 [] (.str "01:02:03.5") (.str "time") = (PRes.ok (some false), []) ∧
    validC 3 [] (.str "01:02:03") (.str "time") = (PRes.ok (some true), []) := ⟨rfl, rfl⟩

/-- C9: a constructed `string` type whose pattern does not compile
yields `False` for every data value and every context — the bare
`except` in `valid_string` turns the compile error into an ordinary
non-match, never a schema error. -/
theorem validC_regex_compile_error_false (f : Nat) (c : List Value) (x : Value) (pat : String)
    (h : pyCompile pat = none) :
    validC (f+1) c x (.dict [("string", .str pat)]) = (PRes.ok (some false), c) := by
  have he : validC (f+1) c x (.dict [("string", .str pat)]) =
      (validStringRe x (.str pat), c) := rfl
  rw [he]
  cases x with
  | str s => simp only [validStringRe, h]
  | null => rfl
  | bool b => rfl
  | num n => rfl
  | list xs => rfl
  | dict kvs => rfl

/-- Witness for C9: the pattern `*` does not compile ("nothing to
repeat"), and a non-string data value also gets `False`. -/
theorem validC_regex_compile_error_false_witness :
    validC 1 [] (.num 3) (.dict [("string", .str "*")]) = (PRes.ok (some false), []) :=
  validC_regex_compile_error_false 0 [] (.num 3) "*" rfl

/-- C10: for a compilable pattern without a final end anchor, the
embedded `valid_string` accepts a data string exactly when some
leading piece of it is in the pattern's language — `re.match` anchors
at the beginning only, so trailing characters never cause failure. -/
theorem validC_regex_leading_match (f : Nat) (c : List Value) (pat : String) (r : Rx) (s : String)
    (h : pyCompile pat = some (r, false)) :
    (validC (f+1) c (.str s) (.dict [("string", .str pat)]) = (PRes.ok (some true), c) ↔
      ∃ p q, p ++ q = s.data ∧ matchAll r p = true) := by
  have he : validC (f+1) c (.str s) (.dict [("string", .str pat)]) =
      (validStringRe (.str s) (.str pat), c) := rfl
  rw [he]
  simp only [validStringRe, h]
  rw [if_neg Bool.false_ne_true]
  constructor
  · intro hh
    have hb : matchFront r s.data = true := Option.some.inj (okPairInj hh)
    exact (matchFront_iff r s.data).mp hb
  · intro hex
    have hb := (matchFront_iff r s.data).mpr hex
    rw [hb]

/-- Witness for C10: the pattern `ab` compiles without an end anchor
and accepts `"abcd"` through its leading piece `"ab"`. -/
theorem validC_regex_leading_match_witness :
    validC 1 [] (.str "abcd") (.dict [("string", .str "ab")]) = (PRes.ok (some true), []) :=
  (validC_regex_leading_match 0 [] "ab" (.cat (.lit 'a') (.lit 'b')) "abcd" rfl).mpr
    ⟨['a', 'b'], ['c', 'd'], rfl, rfl⟩
